import Mathlib

/-!
Verification of the image-describer pipeline: a shallow embedding of
`describe/cli.py`, `describe/store.py` and `describe/backends.py`.
Strings are modelled as `List Char`; Python's `str.strip` family is
modelled over the ASCII whitespace characters it removes.
-/

namespace ImageDescriber

/-- Python whitespace characters recognised by `str.strip()` (ASCII part). -/
def isSpace (c : Char) : Bool :=
  c = ' ' || c = '\t' || c = '\n' || c = '\r' || c = Char.ofNat 11 || c = Char.ofNat 12

/-- Python `str.lstrip()`. -/
def lstrip (l : List Char) : List Char := l.dropWhile isSpace

/-- Python `str.rstrip()`. -/
def rstrip (l : List Char) : List Char := (l.reverse.dropWhile isSpace).reverse

/-- Python `str.strip()`. -/
def strip (l : List Char) : List Char := lstrip (rstrip l)

/-- Python `str.startswith(p)` on `List Char`. -/
def startsWith : List Char → List Char → Bool
  | _, [] => true
  | [], _ :: _ => false
  | a :: as, b :: bs => a == b && startsWith as bs

theorem dropWhile_dropWhile (p : Char → Bool) (l : List Char) :
    (l.dropWhile p).dropWhile p = l.dropWhile p := by
  induction l with
  | nil => rfl
  | cons a t ih =>
    by_cases h : p a
    · simp [List.dropWhile_cons, h, ih]
    · simp [List.dropWhile_cons, h]

theorem len_dropWhile_le (p : Char → Bool) (l : List Char) :
    (l.dropWhile p).length ≤ l.length := by
  induction l with
  | nil => simp
  | cons a t ih =>
    by_cases h : p a
    · rw [List.dropWhile_cons_of_pos h]
      exact Nat.le_trans ih (Nat.le_succ _)
    · rw [List.dropWhile_cons_of_neg h]

theorem head_false_of_dropWhile_eq (p : Char → Bool) (a : Char) (t : List Char)
    (h : (a :: t).dropWhile p = a :: t) : p a = false := by
  by_cases hp : p a
  · exfalso
    rw [List.dropWhile_cons_of_pos hp] at h
    have hlen : (t.dropWhile p).length = (a :: t).length := congrArg List.length h
    have hle : (t.dropWhile p).length ≤ t.length := len_dropWhile_le p t
    simp [List.length_cons] at hlen
    omega
  · exact eq_false_of_ne_true hp

/-- Fixed points of `dropWhile` are preserved by `take`. -/
theorem dropWhile_take_of_fixed (p : Char → Bool) (l : List Char) (k : Nat)
    (h : l.dropWhile p = l) : (l.take k).dropWhile p = l.take k := by
  cases l with
  | nil => simp
  | cons a t =>
    have ha : p a = false := head_false_of_dropWhile_eq p a t h
    cases k with
    | zero => simp
    | succ n => simp [List.take_succ_cons, List.dropWhile_cons, ha]

/-- Applying `dropWhile` produces a `drop` of its argument. -/
theorem dropWhile_eq_drop_ex (p : Char → Bool) (l : List Char) :
    ∃ n, l.dropWhile p = l.drop n := by
  induction l with
  | nil => exact ⟨0, rfl⟩
  | cons a t ih =>
    by_cases h : p a
    · obtain ⟨n, hn⟩ := ih
      exact ⟨n + 1, by simp [List.dropWhile_cons, h, hn]⟩
    · exact ⟨0, by simp [List.dropWhile_cons, h]⟩

/-- Fixed points of `dropWhile` are preserved by `drop`, on the reversed side:
if `rstrip l = l` then `rstrip (l.drop n) = l.drop n`. -/
theorem rstrip_drop_of_fixed (l : List Char) (n : Nat) (h : rstrip l = l) :
    rstrip (l.drop n) = l.drop n := by
  have hrev : l.reverse.dropWhile isSpace = l.reverse := by
    have := congrArg List.reverse h
    simpa [rstrip] using this
  have htake : (l.drop n).reverse = l.reverse.take (l.length - n) := by
    rw [List.reverse_drop]
  unfold rstrip
  rw [htake, dropWhile_take_of_fixed isSpace l.reverse (l.length - n) hrev, ← htake,
    List.reverse_reverse]

theorem lstrip_lstrip (l : List Char) : lstrip (lstrip l) = lstrip l :=
  dropWhile_dropWhile isSpace l

theorem rstrip_rstrip (l : List Char) : rstrip (rstrip l) = rstrip l := by
  unfold rstrip
  rw [List.reverse_reverse, dropWhile_dropWhile]

/-- Applying `lstrip` to an `rstrip`-fixed point keeps it `rstrip`-fixed. -/
theorem rstrip_lstrip_of_fixed (l : List Char) (h : rstrip l = l) :
    rstrip (lstrip l) = lstrip l := by
  obtain ⟨n, hn⟩ := dropWhile_eq_drop_ex isSpace l
  unfold lstrip
  rw [hn]
  exact rstrip_drop_of_fixed l n h

theorem lstrip_strip (l : List Char) : lstrip (strip l) = strip l := by
  unfold strip
  rw [lstrip_lstrip]

theorem rstrip_strip (l : List Char) : rstrip (strip l) = strip l := by
  unfold strip
  exact rstrip_lstrip_of_fixed (rstrip l) (rstrip_rstrip l)

theorem strip_strip (l : List Char) : strip (strip l) = strip l := by
  show lstrip (rstrip (strip l)) = strip l
  rw [rstrip_strip, lstrip_strip]

/-! ## The clean step of the subprocess backend -/

/-- The fixed ordered list of role markers tried by `_clean_llama_output`. -/
def markers : List (List Char) :=
  ["Assistant:".toList, "ASSISTANT:".toList,
   "### Assistant:".toList, "### ASSISTANT:".toList]

/-- The `for prefix in (...): if cleaned.startswith(prefix): ...; break` loop of
`_clean_llama_output`: strips the first matching marker (then `lstrip`s), or
returns the text unchanged. -/
def dropMarker : List (List Char) → List Char → List Char
  | [], l => l
  | m :: ms, l => if startsWith l m then lstrip (l.drop m.length) else dropMarker ms l

/-- Model of `backends._clean_llama_output(text, prompt)`, translated line by line:
strip; early return on empty; strip the prompt echo (guarded by `prompt and`);
strip the first matching role marker; final strip. -/
def cleanLlama (text prompt : List Char) : List Char :=
  let cleaned := strip text
  if cleaned = [] then cleaned
  else
    let c1 := if prompt ≠ [] ∧ startsWith cleaned prompt = true
      then lstrip (cleaned.drop prompt.length) else cleaned
    let c2 := dropMarker markers c1
    strip c2

/-- The clean step as the specification words it (claim C7): trim, then the
prompt check, then the marker check, then a final trim — with no early return
and no guard on an empty prompt. -/
def cleanClaim (text prompt : List Char) : List Char :=
  let s0 := strip text
  let s1 := if startsWith s0 prompt = true then lstrip (s0.drop prompt.length) else s0
  let s2 := dropMarker markers s1
  strip s2

example : cleanLlama "  hi there  ".toList "p".toList = "hi there".toList := by decide
example : cleanLlama "Q? Assistant: yes".toList "Q?".toList = "yes".toList := by decide
example : cleanLlama "### ASSISTANT: ok".toList "Q?".toList = "ok".toList := by decide

theorem startsWith_nil_right (l : List Char) : startsWith l [] = true := by
  cases l <;> rfl

theorem startsWith_drop (l p : List Char) (h : startsWith l p = true) :
    l = p ++ l.drop p.length := by
  induction p generalizing l with
  | nil => simp
  | cons b bs ih =>
    cases l with
    | nil => simp [startsWith] at h
    | cons a t =>
      simp only [startsWith, Bool.and_eq_true, beq_iff_eq] at h
      obtain ⟨hab, hrest⟩ := h
      subst hab
      simp only [List.cons_append, List.length_cons, List.drop_succ_cons]
      exact congrArg (a :: ·) (ih t hrest)

theorem dropMarker_id (ms : List (List Char)) (l : List Char)
    (h : ∀ m ∈ ms, startsWith l m = false) : dropMarker ms l = l := by
  induction ms with
  | nil => rfl
  | cons m ms ih =>
    rw [dropMarker, if_neg]
    · exact ih fun x hx => h x (List.mem_cons_of_mem m hx)
    · simp [h m (List.mem_cons_self m ms)]

/-- The clean step always returns a fully stripped string. -/
theorem strip_cleanLlama (text prompt : List Char) :
    strip (cleanLlama text prompt) = cleanLlama text prompt := by
  unfold cleanLlama
  by_cases h : strip text = []
  · simp only [h, if_pos rfl]
    rfl
  · simp only [if_neg h]
    exact strip_strip _

/-- C7: the subprocess variant's clean step equals exactly the specified
sequence — trim, strip a leading prompt echo then re-trim, strip the first
matching role marker then re-trim, final trim — with every check applied in
sequence. The code's early return on empty text and its guard skipping the
prompt check when the prompt is empty do not change the result. -/
theorem claim_C7_clean_sequence (text prompt : List Char) :
    cleanLlama text prompt = cleanClaim text prompt := by
  simp only [cleanLlama, cleanClaim]
  by_cases h0 : strip text = []
  · rw [h0]
    have hl : lstrip ([] : List Char) = [] := rfl
    have hd : dropMarker markers ([] : List Char) = [] := by decide
    have hst : strip ([] : List Char) = [] := rfl
    simp [List.drop_nil, hl, hd, hst]
  · simp only [if_neg h0]
    congr 1
    congr 1
    cases prompt with
    | nil => simp [startsWith_nil_right, lstrip_strip]
    | cons p ps => simp

/-- C8 counterexample: the clean step is not idempotent. With prompt `"a"`
and raw output `"aa"`, one application yields `"a"`, a second application
strips the prompt again and yields `""`. -/
theorem claim_C8_counterexample :
    cleanLlama (cleanLlama "aa".toList "a".toList) "a".toList ≠
      cleanLlama "aa".toList "a".toList := by decide

/-- C8 amended: the clean step is idempotent provided its output does not
itself begin with the (non-empty) prompt, nor with one of the role-marker
prefixes. -/
theorem claim_C8_amended (text prompt : List Char)
    (h1 : prompt = [] ∨ startsWith (cleanLlama text prompt) prompt = false)
    (h2 : ∀ m ∈ markers, startsWith (cleanLlama text prompt) m = false) :
    cleanLlama (cleanLlama text prompt) prompt = cleanLlama text prompt := by
  have hs : strip (cleanLlama text prompt) = cleanLlama text prompt :=
    strip_cleanLlama text prompt
  generalize hgen : cleanLlama text prompt = o at h1 h2 hs ⊢
  unfold cleanLlama
  rw [hs]
  by_cases h0 : o = []
  · simp [h0]
  · have hc1 : ¬(prompt ≠ [] ∧ startsWith o prompt = true) := by
      rcases h1 with h1 | h1
      · exact fun hc => hc.1 h1
      · exact fun hc => by rw [h1] at hc; exact absurd hc.2 (by simp)
    simp only [if_neg h0, if_neg hc1, dropMarker_id markers o h2, hs]

theorem claim_C8_amended_witness :
    cleanLlama (cleanLlama "### Assistant: a cat".toList "Say:".toList)
        "Say:".toList =
      cleanLlama "### Assistant: a cat".toList "Say:".toList :=
  claim_C8_amended "### Assistant: a cat".toList "Say:".toList
    (Or.inr (by decide)) (by decide)

/-! ## Backends (`describe/backends.py`) -/

/-- Decimal rendering of a `Nat`, as Python string interpolation produces. -/
def natChars (n : Nat) : List Char := Nat.toDigits 10 n

/-- Decimal rendering of an `Int`. -/
def intChars (i : Int) : List Char :=
  if i < 0 then '-' :: natChars i.natAbs else natChars i.toNat

/-- A Python exception escaping a backend `describe` call: either a
`BackendError` raised by the backend itself, or an uncaught
`subprocess.TimeoutExpired`. -/
inductive PyErr
  | backendError (msg : List Char)
  | timeoutExpired
deriving DecidableEq

/-- The orchestrator (`cli.main`) wraps `backend.describe` in `except
BackendError` only: that is
the per-image recovery. Any other exception escapes the loop. -/
def recoveredPerImage : PyErr → Bool
  | .backendError _ => true
  | .timeoutExpired => false

/-- Outcome of the `subprocess.run` call in `LlamaCppBackend.describe`:
the executable is missing, the child exceeds the timeout (it is killed and
`TimeoutExpired` is raised), or it completes with an exit code, stdout and
stderr. -/
inductive ProcOutcome
  | notFound
  | timedOut
  | completed (exitCode : Int) (stdout stderr : List Char)

/-- Model of `LlamaCppBackend.describe`, as a function of the subprocess outcome.
Only `FileNotFoundError` is converted to `BackendError`; a
`subprocess.TimeoutExpired` propagates unconverted. -/
def llamaDescribe (binPath prompt : List Char) (outcome : ProcOutcome) :
    Except PyErr (List Char) :=
  match outcome with
  | .notFound =>
    .error (.backendError ("llama.cpp binary not found: ".toList ++ binPath))
  | .timedOut => .error .timeoutExpired
  | .completed rc out err =>
    if rc ≠ 0 then
      .error (.backendError
        ("llama.cpp error ".toList ++ intChars rc ++ ": ".toList ++ strip err))
    else
      .ok (cleanLlama out prompt)

/-- Outcome of an HTTP request: transport failure, or a response with a
status code, raw body text, and (when the body parses as JSON) the payload
the backend extracts from it. -/
inductive HttpOutcome (β : Type)
  | requestFailed (msg : List Char)
  | response (status : Nat) (text : List Char) (parsed : Option β)

/-- Model of `OllamaBackend.describe` as a function of the HTTP outcome; the payload
is the optional `"response"` field (`data.get("response", "")`). -/
def ollamaDescribe (o : HttpOutcome (Option (List Char))) :
    Except PyErr (List Char) :=
  match o with
  | .requestFailed m =>
    .error (.backendError ("Ollama request failed: ".toList ++ m))
  | .response st text parsed =>
    if 400 ≤ st then
      .error (.backendError ("Ollama error ".toList ++ natChars st ++ ": ".toList ++ text))
    else
      match parsed with
      | none => .error (.backendError ("Ollama returned invalid JSON: ".toList ++ text))
      | some fld => .ok (strip (fld.getD []))

/-- Model of `VllmBackend.describe` as a function of the HTTP outcome; the payload is
the `"choices"` list, each entry carrying its optional message content
(`choices[0].get("message", {}).get("content", "")`). -/
def vllmDescribe (o : HttpOutcome (List (Option (List Char)))) :
    Except PyErr (List Char) :=
  match o with
  | .requestFailed m =>
    .error (.backendError ("vLLM request failed: ".toList ++ m))
  | .response st text parsed =>
    if 400 ≤ st then
      .error (.backendError ("vLLM error ".toList ++ natChars st ++ ": ".toList ++ text))
    else
      match parsed with
      | none => .error (.backendError ("vLLM returned invalid JSON: ".toList ++ text))
      | some [] => .error (.backendError "vLLM returned no choices".toList)
      | some (c :: _) => .ok (strip (c.getD []))

/-- C2: the subprocess backend raises `BackendError` when the executable is
missing or the process exits non-zero (the message carrying the stripped
stderr as a suffix), and those errors are the ones the per-image handler
recovers; but a timeout raises `TimeoutExpired`, which is *not* a
`BackendError` and is *not* recovered per-image — the orchestrator loop only
catches `BackendError`, so the run aborts (code bug, see the spec's §4.1 and
§7 which demand the timeout be surfaced as the error). -/
theorem claim_C2_llama_error_cases (bin prompt : List Char) :
    (llamaDescribe bin prompt .notFound =
        .error (.backendError ("llama.cpp binary not found: ".toList ++ bin)) ∧
      recoveredPerImage (.backendError ("llama.cpp binary not found: ".toList ++ bin)) = true) ∧
    (∀ rc out err, rc = 0 ∨
      ∃ msg, llamaDescribe bin prompt (.completed rc out err) =
          .error (.backendError msg) ∧
        strip err <:+ msg ∧ recoveredPerImage (.backendError msg) = true) ∧
    (llamaDescribe bin prompt .timedOut = .error .timeoutExpired ∧
      recoveredPerImage .timeoutExpired = false) := by
  refine ⟨⟨rfl, rfl⟩, ?_, rfl, rfl⟩
  intro rc out err
  by_cases h : rc = 0
  · exact Or.inl h
  · refine Or.inr ⟨"llama.cpp error ".toList ++ intChars rc ++ ": ".toList ++ strip err,
      ?_, ⟨"llama.cpp error ".toList ++ intChars rc ++ ": ".toList, rfl⟩, rfl⟩
    simp [llamaDescribe, h]

def stripped (l : List Char) : Prop := lstrip l = l ∧ rstrip l = l

theorem stripped_of_strip_eq (l : List Char) (h : strip l = l) : stripped l := by
  constructor
  · conv_lhs => rw [← h]
    rw [lstrip_strip, h]
  · conv_lhs => rw [← h]
    rw [rstrip_strip, h]

theorem stripped_strip (l : List Char) : stripped (strip l) :=
  stripped_of_strip_eq (strip l) (strip_strip l)

theorem stripped_cleanLlama (text prompt : List Char) :
    stripped (cleanLlama text prompt) :=
  stripped_of_strip_eq _ (strip_cleanLlama text prompt)

/-- C10: every caption any of the three backend variants returns (rather
than failing) carries no leading or trailing whitespace: the two HTTP
variants strip the extracted text, and the subprocess variant's clean step
ends in a final trim. -/
theorem claim_C10_captions_are_stripped :
    (∀ o s, ollamaDescribe o = .ok s → stripped s) ∧
    (∀ o s, vllmDescribe o = .ok s → stripped s) ∧
    (∀ bin prompt oc s, llamaDescribe bin prompt oc = .ok s → stripped s) := by
  refine ⟨?_, ?_, ?_⟩
  · intro o s h
    match o with
    | .requestFailed m => simp [ollamaDescribe] at h
    | .response st text parsed =>
      by_cases hst : 400 ≤ st
      · simp [ollamaDescribe, hst] at h
      · match parsed with
        | none => simp [ollamaDescribe, hst] at h
        | some fld =>
          simp only [ollamaDescribe, if_neg hst, Except.ok.injEq] at h
          rw [← h]
          exact stripped_strip _
  · intro o s h
    match o with
    | .requestFailed m => simp [vllmDescribe] at h
    | .response st text parsed =>
      by_cases hst : 400 ≤ st
      · simp [vllmDescribe, hst] at h
      · match parsed with
        | none => simp [vllmDescribe, hst] at h
        | some [] => simp [vllmDescribe, hst] at h
        | some (c :: _) =>
          simp only [vllmDescribe, if_neg hst, Except.ok.injEq] at h
          rw [← h]
          exact stripped_strip _
  · intro bin prompt oc s h
    match oc with
    | .notFound => simp [llamaDescribe] at h
    | .timedOut => simp [llamaDescribe] at h
    | .completed rc out err =>
      by_cases hrc : rc = 0
      · rw [llamaDescribe, hrc, if_neg (by simp), Except.ok.injEq] at h
        rw [← h]
        exact stripped_cleanLlama out prompt
      · simp [llamaDescribe, hrc] at h

theorem claim_C10_witness :
    stripped "a cat".toList ∧ stripped "a dog".toList ∧ stripped "a fox".toList :=
  ⟨claim_C10_captions_are_stripped.1
      (.response 200 [] (some (some "  a cat ".toList))) "a cat".toList rfl,
    claim_C10_captions_are_stripped.2.1
      (.response 200 [] (some [some " a dog\n".toList])) "a dog".toList rfl,
    claim_C10_captions_are_stripped.2.2 "bin".toList "p".toList
      (.completed 0 " a fox ".toList []) "a fox".toList rfl⟩

/-! ## Index store (`describe/store.py`) -/

/-- The Description Record stored per image (`cli.main`'s `record` dict). -/
structure DescRecord where
  description : List Char
  backend : List Char
  model : Option (List Char)
  prompt : List Char
  updatedAt : List Char
deriving DecidableEq

def hexDigit (n : Nat) : Char :=
  if n < 10 then Char.ofNat (48 + n) else Char.ofNat (87 + n)

/-- JSON escaping of one character, as Python `json.dump` with
`ensure_ascii=False` performs it. -/
def escChar (c : Char) : List Char :=
  if c = '"' then ['\\', '"']
  else if c = '\\' then ['\\', '\\']
  else if c = '\n' then ['\\', 'n']
  else if c = '\t' then ['\\', 't']
  else if c = '\r' then ['\\', 'r']
  else if c = Char.ofNat 8 then ['\\', 'b']
  else if c = Char.ofNat 12 then ['\\', 'f']
  else if c.toNat < 32 then
    ['\\', 'u', '0', '0', hexDigit (c.toNat / 16), hexDigit (c.toNat % 16)]
  else [c]

def jsonStr (s : List Char) : List Char := '"' :: (s.map escChar).flatten ++ ['"']

def jsonOptStr : Option (List Char) → List Char
  | none => "null".toList
  | some s => jsonStr s

def joinSep (sep : List Char) : List (List Char) → List Char
  | [] => []
  | [x] => x
  | x :: xs => x ++ sep ++ joinSep sep xs

/-- One Description Record serialized by `json.dump(..., indent=2,
sort_keys=True)` at nesting depth 1: its five keys in sorted order, items
indented four spaces, closing brace indented two. -/
def dumpRecord (r : DescRecord) : List Char :=
  "\x7b\n    \"backend\": ".toList ++ jsonStr r.backend ++
  ",\n    \"description\": ".toList ++ jsonStr r.description ++
  ",\n    \"model\": ".toList ++ jsonOptStr r.model ++
  ",\n    \"prompt\": ".toList ++ jsonStr r.prompt ++
  ",\n    \"updated_at\": ".toList ++ jsonStr r.updatedAt ++
  "\n  \x7d".toList

/-- Sorting per `sort_keys=True` at the top level: entries ordered by key. -/
def sortAssoc (m : List (String × DescRecord)) : List (String × DescRecord) :=
  List.insertionSort (fun a b => a.1 ≤ b.1) m

/-- Model of `json.dump(self.data, f, indent=2, sort_keys=True, ensure_ascii=False)`:
the top-level JSON object. -/
def dumpTop (m : List (String × DescRecord)) : List Char :=
  if sortAssoc m = [] then "\x7b\x7d".toList
  else
    "\x7b\n".toList ++
      joinSep ",\n".toList
        ((sortAssoc m).map fun kv =>
          "  ".toList ++ jsonStr kv.1.toList ++ ": ".toList ++ dumpRecord kv.2) ++
      "\n\x7d".toList

/-- Model of `store.JsonIndex`: an optional file path, the in-memory map (as an
association list with unique keys), and the mutation flag. -/
structure JsonIndex where
  path : Option String
  data : List (String × DescRecord)
  changed : Bool
deriving DecidableEq

/-- Model of `JsonIndex.__init__` + `_load`: no path, or a missing file, leaves the
map empty; otherwise the file's parsed content is loaded. `disk` maps a
path to the parsed content of the file there, `none` when missing. -/
def JsonIndex.init (path : Option String)
    (disk : String → Option (List (String × DescRecord))) : JsonIndex :=
  match path with
  | none => ⟨none, [], false⟩
  | some p => ⟨some p, (disk p).getD [], false⟩

def JsonIndex.has (ix : JsonIndex) (key : String) : Bool :=
  ix.data.any fun kv => kv.1 == key

def JsonIndex.set (ix : JsonIndex) (key : String) (v : DescRecord) : JsonIndex :=
  ⟨ix.path, (key, v) :: ix.data.filter (fun kv => !(kv.1 == key)), true⟩

/-- Model of `JsonIndex.save`: the content written to `path` (dump plus trailing
newline, replacing the file atomically via temp-file-then-`os.replace`), or
`none` when no path is set or no mutation happened. -/
def JsonIndex.save (ix : JsonIndex) : Option (List Char) :=
  match ix.path with
  | none => none
  | some _ => if ix.changed then some (dumpTop ix.data ++ ['\n']) else none

theorem save_none_of_path_none (ix : JsonIndex) (h : ix.path = none) :
    ix.save = none := by
  unfold JsonIndex.save
  rw [h]

/-- A concrete Description Record used in counterexamples and witnesses. -/
def rec0 : DescRecord :=
  ⟨"a cat".toList, "ollama".toList, some "llava-llama3".toList,
    "Describe.".toList, "2026-01-01T00:00:00+00:00".toList⟩

/-- C5 counterexample: with no path, `set` is *not* discarded — after
`set "k"`, `has "k"` returns `true`, where the claim requires `has` to be
false for every key at all times. -/
theorem claim_C5_counterexample :
    ¬(((JsonIndex.init none fun _ => none).set "k" rec0).has "k" = false) := by
  decide

/-- C5 amended: with no path the Index never touches the disk — loading
reads nothing (the initial state is independent of the disk) and `save`
writes nothing after any sequence of `set` calls — and `has` is false for
every key *before* any `set`; but a `set` is retained in memory and is
observable through `has`. -/
theorem claim_C5_amended (d d' : String → Option (List (String × DescRecord)))
    (sets : List (String × DescRecord)) (k : String) :
    (JsonIndex.init none d).has k = false ∧
    JsonIndex.init none d = JsonIndex.init none d' ∧
    (sets.foldl (fun ix kv => ix.set kv.1 kv.2) (JsonIndex.init none d)).save =
      none := by
  have hpath : ∀ (ix : JsonIndex) (l : List (String × DescRecord)),
      (l.foldl (fun ix kv => ix.set kv.1 kv.2) ix).path = ix.path := by
    intro ix l
    induction l generalizing ix with
    | nil => rfl
    | cons a t ih =>
      rw [List.foldl_cons, ih]
      rfl
  exact ⟨rfl, rfl, save_none_of_path_none _ (hpath _ sets)⟩

/-! ## Orchestrator (`describe/cli.py`) -/

/-- The `--store` argument: one of `auto`, `json`, `metadata`, `both`. -/
inductive StoreMode
  | auto | json | metadata | both
deriving DecidableEq

/-- The configuration bundle the orchestrator consumes. -/
structure Cfg where
  force : Bool
  store : StoreMode
  /-- whether `--index` was given explicitly -/
  indexGiven : Bool
  backendName : List Char
  modelName : Option (List Char)
  prompt : List Char

/-- Test `args.store in ("auto", "json", "both")` (cli.py line 55). -/
def storeInAJB : StoreMode → Bool
  | .auto => true
  | .json => true
  | .both => true
  | .metadata => false

/-- An index path resolves iff `--index` was given or the default
`descriptions.json` is assigned (store mode `auto`/`json`/`both`). -/
def pathResolves (c : Cfg) : Bool := c.indexGiven || storeInAJB c.store

/-- Test `args.store in ("auto", "metadata", "both")` (cli.py line 84). -/
def metaAttempted : StoreMode → Bool
  | .auto => true
  | .metadata => true
  | .both => true
  | .json => false

/-- Model of `cli.should_skip`, translated line by line. `isJpeg` is the format's
tag-capability (`ext in (".jpg", ".jpeg")`), `indexHas` is
`index.has(rel_path)`, `hasTag` is `has_exif_description(image)` — true iff
the file carries a non-empty embedded UserComment tag. -/
def shouldSkip (force : Bool) (store : StoreMode)
    (isJpeg indexHas hasTag : Bool) : Bool :=
  if force then false
  else
    let jsonNeeded := (store == .json || store == .both) || (store == .auto && !isJpeg)
    let metaNeeded := (store == .metadata || store == .both) || (store == .auto && isJpeg)
    let jsonOk := if jsonNeeded then indexHas else true
    let metaOk :=
      if metaNeeded && isJpeg then hasTag
      else if metaNeeded && !isJpeg then false
      else true
    jsonOk && metaOk

/-- The skip decision exactly as claim C1 words it. -/
def skipClaim (force : Bool) (store : StoreMode)
    (tagCapable indexHas hasTag : Bool) : Bool :=
  if force then false
  else
    let jsonNeeded := (store == .json || store == .both) || (store == .auto && !tagCapable)
    let metaNeeded := (store == .metadata || store == .both) || (store == .auto && tagCapable)
    let jsonOk := !jsonNeeded || indexHas
    let metaOk := if metaNeeded then (if tagCapable then hasTag else false) else true
    jsonOk && metaOk

/-- C1: with force unset the skip decision is a pure function of (mode,
tag-capability, Index membership, non-empty embedded tag) computed exactly
by the claimed formulas, and with force set the image is never skipped. -/
theorem claim_C1_skip_decision (force : Bool) (store : StoreMode)
    (tagCapable indexHas hasTag : Bool) :
    shouldSkip force store tagCapable indexHas hasTag =
      skipClaim force store tagCapable indexHas hasTag ∧
    shouldSkip true store tagCapable indexHas hasTag = false := by
  cases store <;> cases force <;> cases tagCapable <;> cases indexHas <;>
    cases hasTag <;> exact ⟨rfl, rfl⟩

/-- Per-image status line: `ok`, `skip` or `error`. -/
inductive Status
  | ok | skip | error
deriving DecidableEq

/-- Observable side effects, in order of occurrence: a Backend invocation, a
metadata (EXIF) write into the image file, an in-memory Index mutation, and
the end-of-run Index file write. -/
inductive Ev
  | backendCall | tagWrite | indexSet | diskWrite
deriving DecidableEq

/-- A discovered image: its relative key and its format class. -/
structure Image where
  key : String
  isJpeg : Bool

/-- The environment's behaviour for one image: whether `backend.describe`
succeeds, whether `write_exif_description` raises, and the produced caption
and timestamp. -/
structure ImgFate where
  backendOk : Bool
  metaRaises : Bool
  caption : List Char
  timestamp : List Char

/-- The orchestrator's mutable state across the loop. -/
structure LoopState where
  index : JsonIndex
  /-- keys of images whose file carries a non-empty description tag -/
  tags : List String
  hadErrors : Bool

/-- The `record` dict built in `cli.main`. -/
def mkRecord (cfg : Cfg) (fate : ImgFate) : DescRecord :=
  ⟨fate.caption, cfg.backendName, cfg.modelName, cfg.prompt, fate.timestamp⟩

/-- One iteration of the `for image in images` loop in `cli.main`:
skip check, backend call, `try_store_metadata`, the metadata-mode gate, and
the Index write, with `BackendError`/`StoreError` recovered per-image. -/
def processImage (cfg : Cfg) (st : LoopState) (img : Image) (fate : ImgFate) :
    Status × LoopState × List Ev :=
  if shouldSkip cfg.force cfg.store img.isJpeg (st.index.has img.key)
      (st.tags.contains img.key) then
    (.skip, st, [])
  else if !fate.backendOk then
    (.error, ⟨st.index, st.tags, true⟩, [.backendCall])
  else if metaAttempted cfg.store && img.isJpeg && fate.metaRaises then
    (.error, ⟨st.index, st.tags, true⟩, [.backendCall])
  else
    let storedMeta := metaAttempted cfg.store && img.isJpeg
    let tags' := if storedMeta then img.key :: st.tags else st.tags
    let evs := if storedMeta then [Ev.backendCall, Ev.tagWrite] else [Ev.backendCall]
    if cfg.store == .metadata && !storedMeta then
      (.error, ⟨st.index, tags', true⟩, evs)
    else if (cfg.store == .json || cfg.store == .both) ||
        (cfg.store == .auto && !storedMeta) then
      (.ok, ⟨st.index.set img.key (mkRecord cfg fate), tags', st.hadErrors⟩,
        evs ++ [.indexSet])
    else
      (.ok, ⟨st.index, tags', st.hadErrors⟩, evs)

/-- The full processing loop, returning the status lines, the final state
and the event trace. -/
def runLoop (cfg : Cfg) : LoopState → List (Image × ImgFate) →
    List Status × LoopState × List Ev
  | st, [] => ([], st, [])
  | st, (img, fate) :: rest =>
    let r := processImage cfg st img fate
    let rr := runLoop cfg r.2.1 rest
    (r.1 :: rr.1, rr.2.1, r.2.2 ++ rr.2.2)

/-- Persistent state between runs: the parsed content of the index file
(none = missing) and the set of images carrying a description tag. -/
structure World where
  indexFile : Option (List (String × DescRecord))
  tags : List String

structure RunResult where
  statuses : List Status
  finalState : LoopState
  trace : List Ev
  written : Option (List Char)
  world : World

/-- The loop's starting state: the `JsonIndex` built over the resolved path
(if any), the pre-existing tags, and `had_errors = False`. -/
def initState (cfg : Cfg) (w : World) : LoopState :=
  ⟨JsonIndex.init (if pathResolves cfg then some "idx" else none)
    (fun _ => w.indexFile), w.tags, false⟩

/-- One full run of `cli.main`'s processing phase: build the `JsonIndex`
(loading the file when a path resolves), run the loop, and `index.save()`
once at the end. The next run's `json.load` of a dumped file recovers the
dumped map, so the new world records the parsed form directly. -/
def runAll (cfg : Cfg) (imgs : List (Image × ImgFate)) (w : World) : RunResult :=
  let r := runLoop cfg (initState cfg w) imgs
  let written := r.2.1.index.save
  ⟨r.1, r.2.1,
    r.2.2 ++ (match written with | some _ => [Ev.diskWrite] | none => []),
    written,
    ⟨match written with
      | some _ => some r.2.1.index.data
      | none => w.indexFile,
      r.2.1.tags⟩⟩

/-- Model of `cli.main`'s exit status, with its checks in source order: missing path,
`collect_images` failure, zero images, backend construction failure, then
the loop. -/
def mainExit (pathExists collectOk backendCfgOk : Bool) (cfg : Cfg)
    (imgs : List (Image × ImgFate)) (w : World) : Nat :=
  if !pathExists then 2
  else if !collectOk then 2
  else if imgs.isEmpty then 1
  else if !backendCfgOk then 2
  else if (runAll cfg imgs w).finalState.hadErrors then 1 else 0

/-- A concrete configuration used in counterexamples and witnesses. -/
def cfg0 (force : Bool) (store : StoreMode) (indexGiven : Bool) : Cfg :=
  ⟨force, store, indexGiven, "ollama".toList, some "llava-llama3".toList,
    "Describe.".toList⟩

/-- An empty starting world: no index file, no tagged image. -/
def w0 : World := ⟨none, []⟩

/-- A fate where everything succeeds. -/
def fateOk : ImgFate := ⟨true, false, "a cat".toList, "2026-01-01T00:00:00+00:00".toList⟩

/-- C6 counterexample: with an existing directory containing zero images the
process exits with status 1 — reached before the backend configuration is
even validated and with no per-image error — where the claim requires exit
status 2 for the "no images found" input error (and requires 1 only when a
per-image error occurred). -/
theorem claim_C6_counterexample :
    mainExit true true true (cfg0 false .auto false) [] w0 = 1 ∧
    mainExit true true false (cfg0 false .auto false) [] w0 = 1 := by
  exact ⟨rfl, rfl⟩

/-- C6 amended: exit status 2 iff the path is missing, the path is neither a
recognized image nor a folder, or (at least one image was found and) the
backend configuration is invalid; exit status 1 iff those checks pass and
either zero images were found ("nothing to do") or at least one per-image
error occurred; exit status 0 iff all checks pass, at least one image was
found, and no per-image error occurred. -/
theorem claim_C6_amended (pathExists collectOk backendCfgOk : Bool) (cfg : Cfg)
    (imgs : List (Image × ImgFate)) (w : World) :
    (mainExit pathExists collectOk backendCfgOk cfg imgs w = 0 ↔
      pathExists = true ∧ collectOk = true ∧ imgs ≠ [] ∧ backendCfgOk = true ∧
        (runAll cfg imgs w).finalState.hadErrors = false) ∧
    (mainExit pathExists collectOk backendCfgOk cfg imgs w = 1 ↔
      pathExists = true ∧ collectOk = true ∧
        (imgs = [] ∨ (backendCfgOk = true ∧
          (runAll cfg imgs w).finalState.hadErrors = true))) ∧
    (mainExit pathExists collectOk backendCfgOk cfg imgs w = 2 ↔
      pathExists = false ∨ collectOk = false ∨
        (imgs ≠ [] ∧ backendCfgOk = false)) := by
  unfold mainExit
  generalize (runAll cfg imgs w).finalState.hadErrors = e
  cases e <;> cases pathExists <;> cases collectOk <;> cases backendCfgOk <;>
    cases imgs <;> simp_all

/-- A tag-capable (JPEG) image and a non-capable (PNG) one. -/
def imgJpg : Image := ⟨"a.jpg", true⟩

def imgPng : Image := ⟨"b.png", false⟩

/-- A fate where the backend succeeds but `write_exif_description` raises. -/
def fateRaise : ImgFate :=
  ⟨true, true, "a cat".toList, "2026-01-01T00:00:00+00:00".toList⟩

/-- An initial loop state over an empty index file with a resolved path. -/
def stA : LoopState := ⟨JsonIndex.init (some "idx") fun _ => none, [], false⟩

/-- C3 counterexample: in `auto` mode on a JPEG whose metadata write fails
with an error (a raised `StoreError`), the metadata write "did not succeed",
so the claim requires an Index write — but the exception jumps to the
per-image handler and no Index write happens. -/
theorem claim_C3_counterexample :
    (processImage (cfg0 false .auto false) stA imgJpg fateRaise).1 = .error ∧
    Ev.indexSet ∉ (processImage (cfg0 false .auto false) stA imgJpg fateRaise).2.2 := by
  decide

/-- C3 amended: for a processed image (not skipped, backend succeeded) the
record is written to the Index iff the metadata step did not raise AND
(mode is `json` or `both`, or mode is `auto` and the metadata write
reported not-supported); and in `metadata` mode on a non-capable format the
image yields a per-image error, no Index write, and the run is marked as
having had errors. -/
theorem claim_C3_amended (cfg : Cfg) (st : LoopState) (img : Image) (fate : ImgFate)
    (h1 : shouldSkip cfg.force cfg.store img.isJpeg (st.index.has img.key)
      (st.tags.contains img.key) = false)
    (h2 : fate.backendOk = true) :
    (Ev.indexSet ∈ (processImage cfg st img fate).2.2 ↔
      ((metaAttempted cfg.store && img.isJpeg && fate.metaRaises) = false ∧
        (cfg.store = .json ∨ cfg.store = .both ∨
          (cfg.store = .auto ∧ (metaAttempted cfg.store && img.isJpeg) = false)))) ∧
    (cfg.store = .metadata → img.isJpeg = false →
      (processImage cfg st img fate).1 = .error ∧
        Ev.indexSet ∉ (processImage cfg st img fate).2.2 ∧
        (processImage cfg st img fate).2.1.hadErrors = true) := by
  obtain ⟨f, store, ig, bn, mn, pr⟩ := cfg
  obtain ⟨k, jpg⟩ := img
  obtain ⟨bok, mraise, cap, ts⟩ := fate
  simp only at h1 h2
  subst h2
  cases store <;> cases jpg <;> cases mraise <;>
    simp_all [processImage, metaAttempted]

theorem claim_C3_amended_witness :
    (processImage (cfg0 false .metadata true) stA imgPng fateOk).1 = .error ∧
    Ev.indexSet ∉ (processImage (cfg0 false .metadata true) stA imgPng fateOk).2.2 ∧
    (processImage (cfg0 false .metadata true) stA imgPng fateOk).2.1.hadErrors = true :=
  (claim_C3_amended (cfg0 false .metadata true) stA imgPng fateOk
    (by decide) rfl).2 rfl rfl

/-! ## Structural lemmas about the loop -/

theorem has_set_self (ix : JsonIndex) (k : String) (v : DescRecord) :
    (ix.set k v).has k = true := by
  simp [JsonIndex.set, JsonIndex.has]

theorem has_set_mono (ix : JsonIndex) (k : String) (v : DescRecord) (k' : String)
    (h : ix.has k' = true) : (ix.set k v).has k' = true := by
  simp only [JsonIndex.has, List.any_eq_true, beq_iff_eq] at h ⊢
  obtain ⟨kv, hmem, hk⟩ := h
  by_cases hkk : kv.1 = k
  · exact ⟨(k, v), List.mem_cons_self _ _, by rw [← hk, hkk]⟩
  · refine ⟨kv, List.mem_cons_of_mem _ ?_, hk⟩
    simp [List.mem_filter, hmem, hkk]

/-- Each loop iteration either leaves the index untouched (emitting no
`indexSet` event) or performs exactly the `index.set` for this image's key
(emitting one), and either leaves the tag set untouched or adds this
image's key. -/
theorem processImage_cases (cfg : Cfg) (st : LoopState) (img : Image) (fate : ImgFate) :
    (((processImage cfg st img fate).2.1.index = st.index ∧
        Ev.indexSet ∉ (processImage cfg st img fate).2.2) ∨
      ((processImage cfg st img fate).2.1.index =
          st.index.set img.key (mkRecord cfg fate) ∧
        Ev.indexSet ∈ (processImage cfg st img fate).2.2)) ∧
    ((processImage cfg st img fate).2.1.tags = st.tags ∨
      (processImage cfg st img fate).2.1.tags = img.key :: st.tags) ∧
    Ev.diskWrite ∉ (processImage cfg st img fate).2.2 := by
  obtain ⟨f, store, ig, bn, mn, pr⟩ := cfg
  obtain ⟨k, jpg⟩ := img
  obtain ⟨bok, mraise, cap, ts⟩ := fate
  by_cases hs : shouldSkip f store jpg (st.index.has k) (st.tags.contains k) = true <;>
    cases store <;> cases jpg <;> cases bok <;> cases mraise <;>
      simp_all [processImage, metaAttempted]

/-- A `set` always turns the mutation flag on; the flag never resets. -/
theorem changed_set (ix : JsonIndex) (k : String) (v : DescRecord) :
    (ix.set k v).changed = true := rfl

/-- The index's `path` is never modified by the loop body. -/
theorem processImage_path (cfg : Cfg) (st : LoopState) (img : Image) (fate : ImgFate) :
    (processImage cfg st img fate).2.1.index.path = st.index.path := by
  rcases (processImage_cases cfg st img fate).1 with ⟨h, _⟩ | ⟨h, _⟩
  · rw [h]
  · rw [h]
    rfl

theorem runLoop_path (cfg : Cfg) (imgs : List (Image × ImgFate)) (st : LoopState) :
    (runLoop cfg st imgs).2.1.index.path = st.index.path := by
  induction imgs generalizing st with
  | nil => rfl
  | cons p rest ih =>
    obtain ⟨img, fate⟩ := p
    rw [runLoop]
    exact (ih _).trans (processImage_path cfg st img fate)

theorem runLoop_no_diskWrite (cfg : Cfg) (imgs : List (Image × ImgFate)) (st : LoopState) :
    Ev.diskWrite ∉ (runLoop cfg st imgs).2.2 := by
  induction imgs generalizing st with
  | nil => simp [runLoop]
  | cons p rest ih =>
    obtain ⟨img, fate⟩ := p
    rw [runLoop]
    intro hmem
    rcases List.mem_append.mp hmem with h | h
    · exact (processImage_cases cfg st img fate).2.2 h
    · exact ih _ h

/-- The mutation flag is monotone along the loop. -/
theorem runLoop_changed_mono (cfg : Cfg) (imgs : List (Image × ImgFate)) (st : LoopState)
    (h : st.index.changed = true) : (runLoop cfg st imgs).2.1.index.changed = true := by
  induction imgs generalizing st with
  | nil => exact h
  | cons p rest ih =>
    obtain ⟨img, fate⟩ := p
    rw [runLoop]
    refine ih _ ?_
    rcases (processImage_cases cfg st img fate).1 with ⟨he, _⟩ | ⟨he, _⟩ <;> rw [he]
    · exact h
    · rfl

/-- If the loop ends with the mutation flag set that it started without, an
`indexSet` event occurred. -/
theorem runLoop_changed_indexSet (cfg : Cfg) (imgs : List (Image × ImgFate)) (st : LoopState)
    (h : (runLoop cfg st imgs).2.1.index.changed = true)
    (h0 : st.index.changed = false) : Ev.indexSet ∈ (runLoop cfg st imgs).2.2 := by
  induction imgs generalizing st with
  | nil =>
    rw [runLoop] at h
    rw [h0] at h
    exact absurd h (by simp)
  | cons p rest ih =>
    obtain ⟨img, fate⟩ := p
    rw [runLoop] at h ⊢
    rcases (processImage_cases cfg st img fate).1 with ⟨he, _⟩ | ⟨_, hmem⟩
    · refine List.mem_append.mpr (Or.inr ?_)
      exact ih _ (by simpa using h) (by rw [he]; exact h0)
    · exact List.mem_append.mpr (Or.inl hmem)

/-- If the loop never performed a `set`, the index is unchanged. -/
theorem runLoop_index_unchanged (cfg : Cfg) (imgs : List (Image × ImgFate)) (st : LoopState)
    (h : (runLoop cfg st imgs).2.1.index.changed = false)
    (h0 : st.index.changed = false) :
    (runLoop cfg st imgs).2.1.index = st.index := by
  induction imgs generalizing st with
  | nil => rfl
  | cons p rest ih =>
    obtain ⟨img, fate⟩ := p
    rw [runLoop] at h ⊢
    rcases (processImage_cases cfg st img fate).1 with ⟨he, _⟩ | ⟨he, _⟩
    · exact (ih _ (by simpa using h) (by rw [he]; exact h0)).trans he
    · exfalso
      have : (runLoop cfg (processImage cfg st img fate).2.1 rest).2.1.index.changed = true :=
        runLoop_changed_mono cfg rest _ (by rw [he]; rfl)
      simp only at h
      rw [this] at h
      exact absurd h (by simp)

/-- In `metadata` store mode the Index write branch is unreachable. -/
theorem processImage_metadata_index (cfg : Cfg) (st : LoopState) (img : Image)
    (fate : ImgFate) (h : cfg.store = .metadata) :
    (processImage cfg st img fate).2.1.index = st.index := by
  obtain ⟨f, store, ig, bn, mn, pr⟩ := cfg
  simp only at h
  subst h
  obtain ⟨k, jpg⟩ := img
  obtain ⟨bok, mraise, cap, ts⟩ := fate
  by_cases hs : shouldSkip f .metadata jpg (st.index.has k) (st.tags.contains k) = true <;>
    cases jpg <;> cases bok <;> cases mraise <;>
      simp_all [processImage, metaAttempted]

theorem runLoop_metadata_index (cfg : Cfg) (imgs : List (Image × ImgFate)) (st : LoopState)
    (h : cfg.store = .metadata) :
    (runLoop cfg st imgs).2.1.index = st.index := by
  induction imgs generalizing st with
  | nil => rfl
  | cons p rest ih =>
    obtain ⟨img, fate⟩ := p
    rw [runLoop]
    exact (ih _).trans (processImage_metadata_index cfg st img fate h)

theorem runAll_statuses (cfg : Cfg) (imgs : List (Image × ImgFate)) (w : World) :
    (runAll cfg imgs w).statuses = (runLoop cfg (initState cfg w) imgs).1 := rfl

theorem runAll_final (cfg : Cfg) (imgs : List (Image × ImgFate)) (w : World) :
    (runAll cfg imgs w).finalState = (runLoop cfg (initState cfg w) imgs).2.1 := rfl

theorem runAll_written (cfg : Cfg) (imgs : List (Image × ImgFate)) (w : World) :
    (runAll cfg imgs w).written =
      (runLoop cfg (initState cfg w) imgs).2.1.index.save := rfl

theorem runAll_trace (cfg : Cfg) (imgs : List (Image × ImgFate)) (w : World) :
    (runAll cfg imgs w).trace =
      (runLoop cfg (initState cfg w) imgs).2.2 ++
        (match (runLoop cfg (initState cfg w) imgs).2.1.index.save with
          | some _ => [Ev.diskWrite] | none => []) := rfl

theorem init_changed (p : Option String)
    (d : String → Option (List (String × DescRecord))) :
    (JsonIndex.init p d).changed = false := by
  cases p <;> rfl

theorem save_some_changed (ix : JsonIndex) (s : List Char) (h : ix.save = some s) :
    ix.changed = true := by
  unfold JsonIndex.save at h
  cases hp : ix.path with
  | none => rw [hp] at h; exact absurd h (by simp)
  | some p =>
    rw [hp] at h
    by_cases hc : ix.changed = true
    · exact hc
    · rw [if_neg hc] at h
      exact absurd h (by simp)

theorem save_some_eq (ix : JsonIndex) (s : List Char) (h : ix.save = some s) :
    s = dumpTop ix.data ++ ['\n'] := by
  unfold JsonIndex.save at h
  cases hp : ix.path with
  | none => rw [hp] at h; exact absurd h (by simp)
  | some p =>
    rw [hp] at h
    by_cases hc : ix.changed = true
    · rw [if_pos hc] at h
      exact (Option.some.injEq _ _ ▸ h).symm
    · rw [if_neg hc] at h
      exact absurd h (by simp)

theorem sorted_sortAssoc (m : List (String × DescRecord)) :
    List.Sorted (fun a b : String => a ≤ b) ((sortAssoc m).map Prod.fst) := by
  have h : List.Sorted (fun a b : String × DescRecord => a.1 ≤ b.1) (sortAssoc m) := by
    haveI : IsTotal (String × DescRecord) (fun a b => a.1 ≤ b.1) :=
      ⟨fun a b => le_total a.1 b.1⟩
    haveI : IsTrans (String × DescRecord) (fun a b => a.1 ≤ b.1) :=
      ⟨fun a b c hab hbc => le_trans hab hbc⟩
    exact List.sorted_insertionSort _ _
  exact List.pairwise_map.mpr h

/-- C9: the Index file is written at most once per run; any disk write comes
after the full loop (the trace is the loop's events, none of which is a disk
write, followed by at most one disk write); a disk write implies a prior
`set` mutation; and the written content is the JSON dump of the final map
with its keys emitted in sorted order, ending in a newline. The
temp-file-then-rename of `save` is modelled as the single-step replacement
producing that complete content. -/
theorem claim_C9_single_sorted_write (cfg : Cfg) (imgs : List (Image × ImgFate))
    (w : World) :
    ((runAll cfg imgs w).trace.count Ev.diskWrite ≤ 1) ∧
    (∃ body tail, (runAll cfg imgs w).trace = body ++ tail ∧
      Ev.diskWrite ∉ body ∧ (tail = [] ∨ tail = [Ev.diskWrite])) ∧
    (Ev.diskWrite ∈ (runAll cfg imgs w).trace →
      Ev.indexSet ∈ (runAll cfg imgs w).trace) ∧
    (∀ s, (runAll cfg imgs w).written = some s →
      s.getLast? = some '\n' ∧
      ∃ m, s = dumpTop m ++ ['\n'] ∧
        List.Sorted (fun a b : String => a ≤ b) ((sortAssoc m).map Prod.fst)) := by
  have hnodw : Ev.diskWrite ∉ (runLoop cfg (initState cfg w) imgs).2.2 :=
    runLoop_no_diskWrite cfg imgs (initState cfg w)
  have hcnt0 : (runLoop cfg (initState cfg w) imgs).2.2.count Ev.diskWrite = 0 :=
    List.count_eq_zero_of_not_mem hnodw
  refine ⟨?_, ?_, ?_, ?_⟩
  · rw [runAll_trace, List.count_append, hcnt0]
    cases (runLoop cfg (initState cfg w) imgs).2.1.index.save <;> simp
  · refine ⟨(runLoop cfg (initState cfg w) imgs).2.2, _, runAll_trace cfg imgs w,
      hnodw, ?_⟩
    cases (runLoop cfg (initState cfg w) imgs).2.1.index.save
    · exact Or.inl rfl
    · exact Or.inr rfl
  · intro hdw
    rw [runAll_trace] at hdw ⊢
    rcases List.mem_append.mp hdw with h | h
    · exact absurd h hnodw
    · refine List.mem_append.mpr (Or.inl ?_)
      cases hs : (runLoop cfg (initState cfg w) imgs).2.1.index.save with
      | none => rw [hs] at h; exact absurd h (by simp)
      | some s =>
        exact runLoop_changed_indexSet cfg imgs (initState cfg w)
          (save_some_changed _ s hs) (init_changed _ _)
  · intro s hs
    rw [runAll_written] at hs
    have he := save_some_eq _ s hs
    refine ⟨by rw [he]; exact List.getLast?_concat _, _, he, sorted_sortAssoc _⟩

theorem claim_C9_witness :
    Ev.indexSet ∈ (runAll (cfg0 false .json false) [(imgPng, fateOk)] w0).trace ∧
    (((runAll (cfg0 false .json false) [(imgPng, fateOk)] w0).written.getD
      []).getLast? = some '\n') :=
  ⟨(claim_C9_single_sorted_write (cfg0 false .json false) [(imgPng, fateOk)]
      w0).2.2.1 (by decide),
    ((claim_C9_single_sorted_write (cfg0 false .json false) [(imgPng, fateOk)]
        w0).2.2.2
      ((runAll (cfg0 false .json false) [(imgPng, fateOk)] w0).written.getD [])
      (by rfl)).1⟩

/-! ## Idempotence of the pipeline (claim C4) -/

/-- The skip check passes for this image in this state. -/
def satisfied (cfg : Cfg) (ix : JsonIndex) (tags : List String) (img : Image) : Prop :=
  shouldSkip cfg.force cfg.store img.isJpeg (ix.has img.key)
    (tags.contains img.key) = true

/-- The skip decision is monotone in Index membership and tag presence. -/
theorem shouldSkip_mono (f : Bool) (s : StoreMode) (j a b a' b' : Bool)
    (ha : a = true → a' = true) (hb : b = true → b' = true)
    (h : shouldSkip f s j a b = true) : shouldSkip f s j a' b' = true := by
  cases s <;> cases f <;> cases j <;> cases a <;> cases b <;> cases a' <;>
    cases b' <;> simp_all [shouldSkip]

theorem processImage_has_mono (cfg : Cfg) (st : LoopState) (img : Image)
    (fate : ImgFate) (k : String) (h : st.index.has k = true) :
    (processImage cfg st img fate).2.1.index.has k = true := by
  rcases (processImage_cases cfg st img fate).1 with ⟨he, _⟩ | ⟨he, _⟩ <;> rw [he]
  · exact h
  · exact has_set_mono _ _ _ _ h

theorem processImage_tags_mono (cfg : Cfg) (st : LoopState) (img : Image)
    (fate : ImgFate) (k : String) (h : st.tags.contains k = true) :
    (processImage cfg st img fate).2.1.tags.contains k = true := by
  rcases (processImage_cases cfg st img fate).2.1 with he | he <;> rw [he]
  · exact h
  · simp only [List.contains_cons, h, Bool.or_true]

theorem runLoop_has_mono (cfg : Cfg) (imgs : List (Image × ImgFate)) (st : LoopState)
    (k : String) (h : st.index.has k = true) :
    (runLoop cfg st imgs).2.1.index.has k = true := by
  induction imgs generalizing st with
  | nil => exact h
  | cons q rest ih =>
    obtain ⟨img, fate⟩ := q
    rw [runLoop]
    exact ih _ (processImage_has_mono cfg st img fate k h)

theorem runLoop_tags_mono (cfg : Cfg) (imgs : List (Image × ImgFate)) (st : LoopState)
    (k : String) (h : st.tags.contains k = true) :
    (runLoop cfg st imgs).2.1.tags.contains k = true := by
  induction imgs generalizing st with
  | nil => exact h
  | cons q rest ih =>
    obtain ⟨img, fate⟩ := q
    rw [runLoop]
    exact ih _ (processImage_tags_mono cfg st img fate k h)

/-- A `satisfied` image stays satisfied across any further processing. -/
theorem satisfied_runLoop_mono (cfg : Cfg) (imgs : List (Image × ImgFate))
    (st : LoopState) (img : Image) (h : satisfied cfg st.index st.tags img) :
    satisfied cfg (runLoop cfg st imgs).2.1.index (runLoop cfg st imgs).2.1.tags
      img :=
  shouldSkip_mono cfg.force cfg.store img.isJpeg _ _ _ _
    (runLoop_has_mono cfg imgs st img.key) (runLoop_tags_mono cfg imgs st img.key) h

/-- A `skip` status means the skip check passed and the state is untouched. -/
theorem processImage_skip_state (cfg : Cfg) (st : LoopState) (img : Image)
    (fate : ImgFate) (h : (processImage cfg st img fate).1 = .skip) :
    (processImage cfg st img fate).2.1 = st ∧ satisfied cfg st.index st.tags img := by
  obtain ⟨f, store, ig, bn, mn, pr⟩ := cfg
  obtain ⟨k, jpg⟩ := img
  obtain ⟨bok, mraise, cap, ts⟩ := fate
  by_cases hs : shouldSkip f store jpg (st.index.has k) (st.tags.contains k) = true <;>
    cases store <;> cases jpg <;> cases bok <;> cases mraise <;>
      simp_all [processImage, satisfied, metaAttempted]

theorem processImage_of_satisfied (cfg : Cfg) (st : LoopState) (img : Image)
    (fate : ImgFate) (h : satisfied cfg st.index st.tags img) :
    processImage cfg st img fate = (.skip, st, []) := by
  unfold satisfied at h
  unfold processImage
  rw [if_pos h]

/-- An `ok` status establishes the skip check for the next run, provided
`both` mode is only used on tag-capable images. -/
theorem satisfied_of_ok (cfg : Cfg) (st : LoopState) (img : Image) (fate : ImgFate)
    (hf : cfg.force = false) (hboth : cfg.store = .both → img.isJpeg = true)
    (hok : (processImage cfg st img fate).1 = .ok) :
    satisfied cfg (processImage cfg st img fate).2.1.index
      (processImage cfg st img fate).2.1.tags img := by
  obtain ⟨f, store, ig, bn, mn, pr⟩ := cfg
  obtain ⟨k, jpg⟩ := img
  obtain ⟨bok, mraise, cap, ts⟩ := fate
  simp only at hf hboth hok ⊢
  subst hf
  by_cases hs : shouldSkip false store jpg (st.index.has k) (st.tags.contains k) = true
  · rw [processImage_of_satisfied ⟨false, store, ig, bn, mn, pr⟩ st ⟨k, jpg⟩
      ⟨bok, mraise, cap, ts⟩ hs] at hok
    exact absurd hok (by simp)
  · rw [processImage, if_neg hs] at hok ⊢
    cases store <;> cases jpg <;> cases bok <;> cases mraise <;>
      simp_all [satisfied, metaAttempted, shouldSkip, has_set_self,
        List.contains_cons]

/-- After an error-free loop every processed image satisfies the skip check
in the final state. -/
theorem runLoop_all_satisfied (cfg : Cfg) (imgs : List (Image × ImgFate))
    (st : LoopState) (hf : cfg.force = false)
    (hnoerr : ∀ s ∈ (runLoop cfg st imgs).1, s ≠ Status.error)
    (hboth : cfg.store = .both → ∀ p ∈ imgs, p.1.isJpeg = true) :
    ∀ p ∈ imgs, satisfied cfg (runLoop cfg st imgs).2.1.index
      (runLoop cfg st imgs).2.1.tags p.1 := by
  induction imgs generalizing st with
  | nil => intro p hp; cases hp
  | cons q rest ih =>
    obtain ⟨img, fate⟩ := q
    simp only [runLoop] at hnoerr ⊢
    intro p hp
    rcases List.mem_cons.mp hp with rfl | hp'
    · have hstat : (processImage cfg st img fate).1 ≠ Status.error :=
        hnoerr _ (List.mem_cons_self _ _)
      cases hq : (processImage cfg st img fate).1 with
      | error => exact absurd hq hstat
      | skip =>
        have hsk := processImage_skip_state cfg st img fate hq
        refine satisfied_runLoop_mono cfg rest _ img ?_
        rw [hsk.1]
        exact hsk.2
      | ok =>
        exact satisfied_runLoop_mono cfg rest _ img
          (satisfied_of_ok cfg st img fate hf
            (fun hb => hboth hb (img, fate) (List.mem_cons_self _ _)) hq)
    · exact ih _ (fun s hs => hnoerr s (List.mem_cons_of_mem _ hs))
        (fun hb r hr => hboth hb r (List.mem_cons_of_mem _ hr)) p hp'

/-- A loop over images that all satisfy the skip check does nothing. -/
theorem runLoop_all_skip (cfg : Cfg) (imgs : List (Image × ImgFate)) (st : LoopState)
    (h : ∀ p ∈ imgs, satisfied cfg st.index st.tags p.1) :
    runLoop cfg st imgs = (imgs.map fun _ => Status.skip, st, []) := by
  induction imgs with
  | nil => rfl
  | cons q rest ih =>
    obtain ⟨img, fate⟩ := q
    rw [runLoop, processImage_of_satisfied cfg st img fate
      (h _ (List.mem_cons_self _ _)),
      ih fun p hp => h p (List.mem_cons_of_mem _ hp)]
    rfl

theorem save_none_of_changed_false (ix : JsonIndex) (h : ix.changed = false) :
    ix.save = none := by
  unfold JsonIndex.save
  cases ix.path with
  | none => rfl
  | some p => rw [h]; rfl

theorem initState_data (cfg : Cfg) (w' : World) (h : pathResolves cfg = true) :
    (initState cfg w').index.data = w'.indexFile.getD [] := by
  simp [initState, JsonIndex.init, h]

theorem initState_data_none (cfg : Cfg) (w' : World) (h : pathResolves cfg = false) :
    (initState cfg w').index.data = [] := by
  simp [initState, JsonIndex.init, h]

theorem runAll_world (cfg : Cfg) (imgs : List (Image × ImgFate)) (w : World) :
    (runAll cfg imgs w).world =
      ⟨match (runLoop cfg (initState cfg w) imgs).2.1.index.save with
        | some _ => some (runLoop cfg (initState cfg w) imgs).2.1.index.data
        | none => w.indexFile,
        (runLoop cfg (initState cfg w) imgs).2.1.tags⟩ := rfl

/-- C4 counterexample: in `both` mode on a PNG, a first run completes with
an `ok` status (no error), yet the second run — because metadata can never
satisfy a need on a non-capable format — reprocesses the image: its status
is not `skip` and the backend is invoked again. -/
theorem claim_C4_counterexample :
    (runAll (cfg0 false .both false) [(imgPng, fateOk)]
        ((runAll (cfg0 false .both false) [(imgPng, fateOk)] w0).world)).statuses ≠
      [Status.skip] ∧
    Ev.backendCall ∈ (runAll (cfg0 false .both false) [(imgPng, fateOk)]
        ((runAll (cfg0 false .both false) [(imgPng, fateOk)] w0).world)).trace := by
  decide

/-- C4 amended: with force unset, if the first run reports no per-image
error, and `both` mode is only used when every image is tag-capable, then a
second run over the same inputs is all `skip` and performs no side effect at
all (in particular zero Backend invocations). -/
theorem claim_C4_amended (cfg : Cfg) (imgs : List (Image × ImgFate)) (w : World)
    (hf : cfg.force = false)
    (hnoerr : ∀ s ∈ (runAll cfg imgs w).statuses, s ≠ Status.error)
    (hboth : cfg.store = .both → ∀ p ∈ imgs, p.1.isJpeg = true) :
    (runAll cfg imgs (runAll cfg imgs w).world).statuses =
      (imgs.map fun _ => Status.skip) ∧
    (runAll cfg imgs (runAll cfg imgs w).world).trace = [] := by
  rw [runAll_statuses] at hnoerr
  have hsat := runLoop_all_satisfied cfg imgs (initState cfg w) hf hnoerr hboth
  have hdata : (initState cfg (runAll cfg imgs w).world).index.data =
      (runLoop cfg (initState cfg w) imgs).2.1.index.data := by
    cases hpr : pathResolves cfg with
    | true =>
      rw [initState_data cfg _ hpr, runAll_world]
      cases hs : (runLoop cfg (initState cfg w) imgs).2.1.index.save with
      | some s => simp only [hs, Option.getD_some]
      | none =>
        simp only [hs]
        have hpath : (runLoop cfg (initState cfg w) imgs).2.1.index.path =
            some "idx" := by
          rw [runLoop_path]
          simp [initState, JsonIndex.init, hpr]
        have hchf : (runLoop cfg (initState cfg w) imgs).2.1.index.changed = false := by
          by_contra hc
          rw [Bool.not_eq_false] at hc
          have hsome : (runLoop cfg (initState cfg w) imgs).2.1.index.save =
              some (dumpTop (runLoop cfg (initState cfg w) imgs).2.1.index.data ++
                ['\n']) := by
            simp [JsonIndex.save, hpath, hc]
          rw [hs] at hsome
          exact absurd hsome (by simp)
        rw [runLoop_index_unchanged cfg imgs (initState cfg w) hchf
          (init_changed _ _)]
        exact (initState_data cfg w hpr).symm
    | false =>
      rw [initState_data_none cfg _ hpr]
      have hst : cfg.store = .metadata := by
        cases hcs : cfg.store <;> simp_all [pathResolves, storeInAJB]
      rw [runLoop_metadata_index cfg imgs (initState cfg w) hst]
      exact (initState_data_none cfg w hpr).symm
  have hhas : ∀ k, (initState cfg (runAll cfg imgs w).world).index.has k =
      (runLoop cfg (initState cfg w) imgs).2.1.index.has k := by
    intro k
    unfold JsonIndex.has
    rw [hdata]
  have htags : (initState cfg (runAll cfg imgs w).world).tags =
      (runLoop cfg (initState cfg w) imgs).2.1.tags := rfl
  have hsat2 : ∀ p ∈ imgs,
      satisfied cfg (initState cfg (runAll cfg imgs w).world).index
        (initState cfg (runAll cfg imgs w).world).tags p.1 := by
    intro p hp
    unfold satisfied
    rw [hhas, htags]
    exact hsat p hp
  have hloop2 := runLoop_all_skip cfg imgs (initState cfg (runAll cfg imgs w).world)
    hsat2
  constructor
  · rw [runAll_statuses, hloop2]
  · rw [runAll_trace, hloop2]
    have hsv : (initState cfg (runAll cfg imgs w).world).index.save = none :=
      save_none_of_changed_false _ (init_changed _ _)
    rw [hsv]
    simp

theorem claim_C4_amended_witness :
    (runAll (cfg0 false .auto false) [(imgJpg, fateOk), (imgPng, fateOk)]
        ((runAll (cfg0 false .auto false) [(imgJpg, fateOk), (imgPng, fateOk)]
          w0).world)).statuses =
      ([(imgJpg, fateOk), (imgPng, fateOk)].map fun _ => Status.skip) ∧
    (runAll (cfg0 false .auto false) [(imgJpg, fateOk), (imgPng, fateOk)]
        ((runAll (cfg0 false .auto false) [(imgJpg, fateOk), (imgPng, fateOk)]
          w0).world)).trace = [] :=
  claim_C4_amended (cfg0 false .auto false) [(imgJpg, fateOk), (imgPng, fateOk)] w0
    rfl (by decide) (by decide)

end ImageDescriber
